import Mathlib

/-!
# Verification of the proof-bootstrapping and verifier-synchronization pipeline

A shallow embedding of the build-time tooling in this repository:

* `src/xtask/src/bootstrap_groth16.rs` — the Groth16 bootstrap pipeline
  (`bootstrap_verifying_key`, `bootstrap_control_id`, `bootstrap_test_receipt`,
  `split_digest`, `generate_receipt`);
* `src/risc0/circuit/recursion/build.rs` — the content-addressed artifact
  cache (`download_zkr`).

Texts are modelled as `List Char` (the sources only manipulate ASCII text,
where Rust's byte indexing and character indexing agree).  Bytes are `Nat`
with explicit `< 256` bounds where they matter.  Fallible Rust code is
modelled with `Option`/`Except`-like result types; `panic!`-style aborts are
a dedicated constructor so they stay distinguishable from recoverable
errors.
-/

namespace Bootstrap

/-! ## Hex primitives (the `hex` crate: `hex::encode`, `hex::decode`)

`hex::encode` renders each byte as two lowercase hex digits.
`hex::decode` accepts upper- and lowercase digits, fails on an odd-length
input or a non-hex character.
-/

/-- Lowercase hex digit for a value `< 16` (as `hex::encode` emits). -/
def hexDigitChar (n : Nat) : Char :=
  if n < 10 then Char.ofNat (48 + n) else Char.ofNat (87 + n)

/-- Value of a hex digit, accepting both cases (as `hex::decode` does);
`none` on a non-hex character. -/
def hexVal (c : Char) : Option Nat :=
  if '0' ≤ c ∧ c ≤ '9' then some (c.toNat - 48)
  else if 'a' ≤ c ∧ c ≤ 'f' then some (c.toNat - 87)
  else if 'A' ≤ c ∧ c ≤ 'F' then some (c.toNat - 55)
  else none

/-- Model of `hex::encode`: each byte becomes two lowercase hex digits. -/
def hexEncode : List Nat → List Char
  | [] => []
  | b :: rest => hexDigitChar (b / 16) :: hexDigitChar (b % 16) :: hexEncode rest

/-- Model of `hex::decode`: pairs of hex digits to bytes; fails on odd length or a
non-hex character. -/
def hexDecode : List Char → Option (List Nat)
  | [] => some []
  | [_] => none
  | c1 :: c2 :: rest =>
    match hexVal c1, hexVal c2, hexDecode rest with
    | some h, some l, some bs => some ((16 * h + l) :: bs)
    | _, _, _ => none

/-! ## `split_digest` (bootstrap_groth16.rs lines 186–194)

```rust
fn split_digest(d: Digest) -> (String, String) {
    let big_endian: Vec<u8> = d.as_bytes().to_vec().iter().rev().cloned().collect();
    let middle = big_endian.len() / 2;
    let (control_id_0, control_id_1) = big_endian.split_at(middle);
    (format!("0x{}", hex::encode(control_id_0)),
     format!("0x{}", hex::encode(control_id_1)))
}
```
A `Digest` is a fixed 32-byte sequence; we model it as a `List Nat` and
carry the length and byte bounds as hypotheses. -/

def split_digest (d : List Nat) : List Char × List Char :=
  let bigEndian := d.reverse
  let middle := bigEndian.length / 2
  ('0' :: 'x' :: hexEncode (bigEndian.take middle),
   '0' :: 'x' :: hexEncode (bigEndian.drop middle))

/-- Remove a literal `0x` prefix from a rendered hex string; `none` when the
prefix is absent. -/
def drop0x : List Char → Option (List Char)
  | '0' :: 'x' :: rest => some rest
  | _ => none

/-! ## The external prover's structured output (generate_receipt lines 257–261)

```rust
let snark_str = read_to_string(snark_path).unwrap();
let snark_str = format!("[{snark_str}]"); // make the output valid json
let raw_proof: (Vec<String>, Vec<Vec<String>>, Vec<String>, Vec<String>) =
    serde_json::from_str(&snark_str).unwrap();
```

We model JSON at the value level: the raw prover output is a sequence of
JSON values (the comma-separated groups) and the `[{snark_str}]` wrapping
forms the array those groups sit in.  `serde_json` deserializes a Rust
tuple from a JSON array of exactly the tuple's arity, a `Vec<String>` from
an array whose elements are all strings, failing otherwise. -/

/-- JSON values (numbers as integers; the decoders under study never
inspect numeric payloads). -/
inductive Json where
  | null : Json
  | bool (b : Bool) : Json
  | num (n : Int) : Json
  | str (s : String) : Json
  | arr (elems : List Json) : Json
  | obj (fields : List (String × Json)) : Json

/-- serde: deserialize a `String` from a JSON value. -/
def decodeStr : Json → Option String
  | .str s => some s
  | _ => none

/-- serde: deserialize each element of an array as a `String`. -/
def decodeStrElems : List Json → Option (List String)
  | [] => some []
  | j :: rest =>
    match decodeStr j, decodeStrElems rest with
    | some s, some ss => some (s :: ss)
    | _, _ => none

/-- serde: deserialize a `Vec<String>` from a JSON value. -/
def decodeStrList : Json → Option (List String)
  | .arr l => decodeStrElems l
  | _ => none

/-- serde: deserialize each element of an array as a `Vec<String>`. -/
def decodeStrListElems : List Json → Option (List (List String))
  | [] => some []
  | j :: rest =>
    match decodeStrList j, decodeStrListElems rest with
    | some s, some ss => some (s :: ss)
    | _, _ => none

/-- serde: deserialize a `Vec<Vec<String>>` from a JSON value. -/
def decodeStrListList : Json → Option (List (List String))
  | .arr l => decodeStrListElems l
  | _ => none

/-- The deserialized external prover output:
`(Vec<String>, Vec<Vec<String>>, Vec<String>, Vec<String>)`. -/
def RawProof : Type := List String × List (List String) × List String × List String

/-- serde: deserialize the 4-tuple `raw_proof` from a JSON value — an array
of exactly four elements of the component types. -/
def decodeRawProof : Json → Option RawProof
  | .arr [g1, g2, g3, g4] =>
    match decodeStrList g1, decodeStrListList g2, decodeStrList g3, decodeStrList g4 with
    | some a, some b, some c, some d => some (a, b, c, d)
    | _, _, _, _ => none
  | _ => none

/-- The proof-decode parse of generate_receipt: wrap the raw output groups
into an array (the `format!("[{snark_str}]")` step) and deserialize
`raw_proof` from it. -/
def parseSnarkOutput (groups : List Json) : Option RawProof :=
  decodeRawProof (Json.arr groups)

/-! ## The hex-decode stage (generate_receipt lines 263–293)

```rust
let a: Result<Vec<Vec<u8>>, hex::FromHexError> = raw_proof
    .0.into_iter().map(|x| hex::decode(&x[2..])).collect();
let a = a.expect("Failed to decode snark 'a' values");
```
(and likewise for `b`, nested, and `c`).  `&x[2..]` panics when the string
is shorter than two bytes; `collect::<Result<..>>` stops at the first
failing element, and `.expect` turns that failure into a panic naming the
group.  A panic and an `.expect` abort are both modelled as `aborted` with
the respective message. -/

/-- Outcome of a code path that can panic (`panic!`, failed `assert_eq!`,
`.expect`/`.unwrap`). -/
inductive RunResult (α : Type) where
  | ok (a : α) : RunResult α
  | aborted (msg : String) : RunResult α
deriving DecidableEq

/-- Panic message of the out-of-bounds byte slice `&x[2..]`. -/
def sliceAbortMsg : String := "byte index 2 is out of bounds"

/-- The `.expect` message for group `a`. -/
def decodeErrA : String := "Failed to decode snark 'a' values"

/-- The `.expect` message for group `b`. -/
def decodeErrB : String := "Failed to decode snark 'b' values"

/-- The `.expect` message for group `c`. -/
def decodeErrC : String := "Failed to decode snark 'c' values"

/-- Model of `tokens.map(|x| hex::decode(&x[2..])).collect::<Result<_,_>>()` followed
by `.expect(errMsg)`: tokens processed in order; a short token aborts with
the slice panic, a failing hex decode aborts with `errMsg`. -/
def decodeGroup (errMsg : String) : List (List Char) → RunResult (List (List Nat))
  | [] => .ok []
  | x :: rest =>
    if x.length < 2 then .aborted sliceAbortMsg
    else
      match hexDecode (x.drop 2) with
      | none => .aborted errMsg
      | some bs =>
        match decodeGroup errMsg rest with
        | .ok bss => .ok (bs :: bss)
        | .aborted m => .aborted m

/-- The nested decode of group `b`: every inner pair's tokens decoded, all
under the single group-`b` `.expect`. -/
def decodeGroupB : List (List (List Char)) → RunResult (List (List (List Nat)))
  | [] => .ok []
  | inner :: rest =>
    match decodeGroup decodeErrB inner with
    | .aborted m => .aborted m
    | .ok bs =>
      match decodeGroupB rest with
      | .ok bss => .ok (bs :: bss)
      | .aborted m => .aborted m

/-- The three decoded groups of elliptic-curve proof elements. -/
structure Groth16SealM where
  a : List (List Nat)
  b : List (List (List Nat))
  c : List (List Nat)
deriving DecidableEq

/-- The decode stage over the parsed `raw_proof`: groups `a`, `b`, `c`
decoded strictly in order (the fourth tuple component is never touched). -/
def decodeGroupsToSeal (raw : RawProof) : RunResult Groth16SealM :=
  match decodeGroup decodeErrA (raw.1.map String.data) with
  | .aborted m => .aborted m
  | .ok a =>
    match decodeGroupB (raw.2.1.map (List.map String.data)) with
    | .aborted m => .aborted m
    | .ok b =>
      match decodeGroup decodeErrC (raw.2.2.1.map String.data) with
      | .aborted m => .aborted m
      | .ok c => .ok { a := a, b := b, c := c }

/-- The terminal Receipt of generate_receipt: a journal plus the Groth16
seal and the claim carried over from the succinct receipt (the claim digest
is what the emitter later renders). -/
structure ReceiptM where
  journal : List Nat
  sealM : Groth16SealM
  claimPostDigest : List Nat
deriving DecidableEq

/-- generate_receipt after the external prover ran (lines 257–302): parse,
decode the three groups, assemble the terminal Receipt.  An abort at any
point yields no Receipt at all. -/
def generate_receipt_post (journal claimPostDigest : List Nat)
    (groups : List Json) : RunResult ReceiptM :=
  match parseSnarkOutput groups with
  | none => .aborted "serde_json::from_str failed"
  | some raw =>
    match decodeGroupsToSeal raw with
    | .aborted m => .aborted m
    | .ok s =>
      .ok { journal := journal, sealM := s, claimPostDigest := claimPostDigest }

/-! ## The execute stage's segment-count assertion (generate_receipt 213–216)

```rust
let session = exec.run().unwrap();
let segments = session.resolve().unwrap();
assert_eq!(segments.len(), 1);
```
The rest of the pipeline (prove, lift, identity fold, …) consumes the
single segment; it is abstracted as a continuation parameter, so the
theorem can state that for a wrong segment count nothing downstream runs. -/

/-- Model of `assert_eq!(segments.len(), 1)` followed by the rest of the pipeline
over `segments[0]`. -/
def execute_stage {σ β : Type} (segments : List σ)
    (afterExecute : σ → RunResult β) : RunResult β :=
  if h : segments.length = 1 then
    afterExecute (segments.get ⟨0, by omega⟩)
  else
    .aborted "assertion failed: segments.len() == 1"

/-! ## The test-receipt emitter (bootstrap_test_receipt, lines 151–183)

```rust
let seal = hex::encode(receipt.inner.groth16().unwrap().seal.clone());
let post_digest = format!("0x{}", hex::encode(receipt.get_claim().unwrap().post.digest().as_bytes()));
let image_id = format!("0x{}", hex::encode(image_id.as_bytes()));
let journal = hex::encode(receipt.journal.bytes);

let seal = format!("bytes public constant SEAL = hex\"{seal}\";");
let post_digest = format!("bytes32 public constant POST_DIGEST = bytes32({seal});");
let journal = format!("bytes public constant JOURNAL = hex\"{journal}\";");
let image_id = format!("bytes32 public constant IMAGE_ID = bytes32({image_id});");
```
Note the second `post_digest` line interpolates `{seal}` — by that point the
re-bound `seal` holding the full SEAL declaration — while the hex string
computed for `post_digest` on the line above is shadowed unused.  The model
renders the four declarations from the byte vectors the code draws them
from. -/

/-- The rendered `SEAL` declaration. -/
def sealDecl (sealBytes : List Nat) : List Char :=
  "bytes public constant SEAL = hex\"".data ++ hexEncode sealBytes ++ "\";".data

/-- The `0x`-prefixed hex string computed for the post digest (immediately
shadowed by the declaration line below). -/
def postDigestHex (postBytes : List Nat) : List Char :=
  "0x".data ++ hexEncode postBytes

/-- The rendered `POST_DIGEST` declaration exactly as the code formats it:
it interpolates the SEAL declaration string, not the post-digest hex. -/
def postDigestDecl (sealBytes : List Nat) : List Char :=
  "bytes32 public constant POST_DIGEST = bytes32(".data ++ sealDecl sealBytes ++ ");".data

/-- Modelled from the spec: the `POST_DIGEST` declaration as §4.4 describes
it — the rendered value is the hex encoding of the Claim's post-state
digest as a bytes32 literal.  (This comparator definition follows the
spec's words; `postDigestDecl` follows the code.) -/
def postDigestDeclSpec (postBytes : List Nat) : List Char :=
  "bytes32 public constant POST_DIGEST = bytes32(".data ++ postDigestHex postBytes ++ ");".data

/-- The rendered `JOURNAL` declaration. -/
def journalDecl (journalBytes : List Nat) : List Char :=
  "bytes public constant JOURNAL = hex\"".data ++ hexEncode journalBytes ++ "\";".data

/-- The rendered `IMAGE_ID` declaration. -/
def imageIdDecl (imageIdBytes : List Nat) : List Char :=
  "bytes32 public constant IMAGE_ID = bytes32(".data ++ "0x".data ++ hexEncode imageIdBytes
    ++ ");".data

/-! ## The artifact cache (`download_zkr`, build.rs lines 36–96)

```rust
if env::var("DOCS_RS").is_ok() { return; }
...
if out_path.exists() {
    if check_sha2(&out_path) { return; }
    fs::remove_file(&out_path).unwrap();
}
if src_path.exists() && check_sha2(&src_path) {
    fs::copy(&src_path, &out_path).unwrap();
    return;
}
// downloader with digest verification
```
The digest function `hex::encode(Sha256::digest(..))` is abstracted as a
parameter `shaHex`; file contents at the cache output path, the preferred
local source path, and the network resource are `Option` byte vectors.
The side effects that matter to the spec — stale-file deletion, local
copy, network access — are recorded as an ordered event list. -/

/-- Observable side effects of the artifact fetch, in order. -/
inductive FetchEv where
  | deleteStale : FetchEv
  | copyLocal : FetchEv
  | downloadNet : FetchEv
deriving DecidableEq

/-- Result of the artifact fetch: content at the cache output path, the
ordered effects performed, and whether the fetch succeeded (an `unwrap`
panic on a failed download is `ok := false`). -/
structure FetchOutcome where
  outFile : Option (List Nat)
  events : List FetchEv
  ok : Bool
deriving DecidableEq

/-- The expected content digest of the artifact (build.rs line 49). -/
def SHA256_HASH : String :=
  "ae5736a42189aec2f04936c3aee4b5441e48b26b4fa1fae28657cf50cdf3cae4"

/-- The fallback after a cache miss: copy the preferred local source if it
exists and its digest matches, otherwise download with digest
verification (a mismatching or missing network resource fails the fetch). -/
def downloadFallback (src net : Option (List Nat))
    (shaHex : List Nat → String) : FetchOutcome :=
  match src with
  | some s =>
    if shaHex s = SHA256_HASH then ⟨some s, [.copyLocal], true⟩
    else
      match net with
      | some content =>
        if shaHex content = SHA256_HASH then ⟨some content, [.downloadNet], true⟩
        else ⟨none, [.downloadNet], false⟩
      | none => ⟨none, [.downloadNet], false⟩
  | none =>
    match net with
    | some content =>
      if shaHex content = SHA256_HASH then ⟨some content, [.downloadNet], true⟩
      else ⟨none, [.downloadNet], false⟩
    | none => ⟨none, [.downloadNet], false⟩

/-- Model of `download_zkr`: documentation-build opt-out, then cache reuse or
stale-file deletion, then the fallback paths. -/
def download_zkr (docsRs : Bool) (outFile src net : Option (List Nat))
    (shaHex : List Nat → String) : FetchOutcome :=
  if docsRs then ⟨outFile, [], true⟩
  else
    match outFile with
    | some data =>
      if shaHex data = SHA256_HASH then ⟨some data, [], true⟩
      else
        let fb := downloadFallback src net shaHex
        ⟨fb.outFile, .deleteStale :: fb.events, fb.ok⟩
    | none => downloadFallback src net shaHex

/-! ## Verifier constant synchronization (bootstrap_verifying_key, 98–115)

```rust
for (i, constant) in solidity_constants.into_iter().enumerate() {
    let re = Regex::new(&format!(r"uint256 constant\s+{}\s*=\s*(\d+);", constant)).unwrap();
    if let Some(caps) = re.captures(&solidity_code) {
        let rust_re = Regex::new(&format!(
            "const {}: &str =[\\r\\n\\s]*\"\\d+\";", rust_constants[i])).unwrap();
        rust_code = rust_re.replace(&rust_code,
            &format!("const {}: &str = \"{}\";", rust_constants[i], &caps[1])).to_string();
    } else {
        println!("{} not found", constant);
    }
}
```

The two patterns are concatenations of literals and the character-class
runs `\s+`, `\s*`, `[\r\n\s]*` and `(\d+)`, where every run is followed by
a character outside its class (a constant name, `=`, `"` or `;`), so the
regex engine's leftmost-first greedy semantics coincide with deterministic
maximal-munch matching, which is what the model implements.  `captures`
yields the leftmost match; `replace` rewrites the leftmost match only and
returns the text unchanged when there is none.  (`\d` is modelled as the
ASCII digits — all texts involved are ASCII.) -/

/-- The regex crate's `\s` class (and `[\r\n\s]`, since `\s` contains
`\r` and `\n`): Unicode White_Space. -/
def isWsRe (c : Char) : Bool :=
  c = ' ' ∨ c = '\t' ∨ c = '\n' ∨ c = '\x0b' ∨ c = '\x0c' ∨ c = '\r' ∨
  c = '\x85' ∨ c = '\xa0' ∨ c = '\u1680' ∨ ('\u2000' ≤ c ∧ c ≤ '\u200a') ∨
  c = '\u2028' ∨ c = '\u2029' ∨ c = '\u202f' ∨ c = '\u205f' ∨ c = '\u3000'

/-- The `\d` class (ASCII range). -/
def isDigitRe (c : Char) : Bool := '0' ≤ c ∧ c ≤ '9'

/-- Match a literal at the front of a text, returning the remainder. -/
def dropLit : List Char → List Char → Option (List Char)
  | [], t => some t
  | _ :: _, [] => none
  | l :: ls, c :: ts => if l = c then dropLit ls ts else none

/-- Pattern `uint256 constant\s+{name}\s*=\s*(\d+);` anchored at the front of the
text: on success, the captured digit run. -/
def matchSolAt (name : List Char) (t : List Char) : Option (List Char) :=
  match dropLit "uint256 constant".data t with
  | none => none
  | some r1 =>
    if (r1.takeWhile isWsRe).isEmpty then none
    else
      match dropLit name (r1.dropWhile isWsRe) with
      | none => none
      | some r2 =>
        match r2.dropWhile isWsRe with
        | '=' :: r3 =>
          if ((r3.dropWhile isWsRe).takeWhile isDigitRe).isEmpty then none
          else
            match (r3.dropWhile isWsRe).dropWhile isDigitRe with
            | ';' :: _ => some ((r3.dropWhile isWsRe).takeWhile isDigitRe)
            | _ => none
        | _ => none

/-- Model of `Regex::captures`: the captured digits of the leftmost match of the
Solidity declaration pattern. -/
def findSolCapture (name : List Char) : List Char → Option (List Char)
  | [] => none
  | c :: rest =>
    match matchSolAt name (c :: rest) with
    | some v => some v
    | none => findSolCapture name rest

/-- The literal part `const {NAME}: &str =` of the Rust-side pattern. -/
def rustLit (name : List Char) : List Char :=
  "const ".data ++ name ++ ": &str =".data

/-- The shape of a Rust-side pattern match:
`rustLit name ++ ws ++ '"' :: ds ++ ['"', ';']` for a whitespace run `ws`
and a nonempty digit run `ds`. -/
def declOf (name ws ds : List Char) : List Char :=
  rustLit name ++ ws ++ '"' :: (ds ++ '"' :: ';' :: [])

/-- The replacement text `const {NAME}: &str = "{v}";` the loop substitutes
in: the matched declaration in canonical single-space form. -/
def canonDecl (name v : List Char) : List Char :=
  declOf name [' '] v

/-- Pattern `const {NAME}: &str =[\r\n\s]*"\d+";` anchored at the front of the
text: on success, the whitespace run, the digit run, and the remainder
after the match. -/
def matchRustAt (name : List Char) (t : List Char) :
    Option (List Char × List Char × List Char) :=
  match dropLit (rustLit name) t with
  | none => none
  | some r1 =>
    match r1.dropWhile isWsRe with
    | '"' :: r2 =>
      if (r2.takeWhile isDigitRe).isEmpty then none
      else
        match r2.dropWhile isDigitRe with
        | '"' :: ';' :: r3 => some (r1.takeWhile isWsRe, r2.takeWhile isDigitRe, r3)
        | _ => none
    | _ => none

/-- The leftmost match of the Rust-side pattern, as a decomposition
`(before, whitespace run, digit run, after)`. -/
def findRustSplit (name : List Char) : List Char →
    Option (List Char × List Char × List Char × List Char)
  | [] => none
  | c :: rest =>
    match matchRustAt name (c :: rest) with
    | some (ws, ds, r) => some ([], ws, ds, r)
    | none =>
      match findRustSplit name rest with
      | some (p, ws, ds, r) => some (c :: p, ws, ds, r)
      | none => none

/-- Model of `rust_re.replace(..)`: rewrite the leftmost match of the declaration
pattern to the canonical declaration carrying the captured value `v`;
unchanged when there is no match. -/
def rustReplace (name v t : List Char) : List Char :=
  match findRustSplit name t with
  | none => t
  | some (p, _, _, r) => p ++ canonDecl name v ++ r

/-- The synchronization loop over the ordered name mapping: per entry,
capture the Solidity constant's literal and rewrite the Rust declaration;
a missing source constant is reported (second component) and the target
left unmodified for that entry. -/
def syncConstants : List (List Char × List Char) → List Char → List Char →
    List Char × List (List Char)
  | [], _, rust => (rust, [])
  | (sn, rn) :: rest, sol, rust =>
    match findSolCapture sn sol with
    | some v => syncConstants rest sol (rustReplace rn v rust)
    | none =>
      ((syncConstants rest sol rust).1, sn :: (syncConstants rest sol rust).2)

end Bootstrap

namespace Bootstrap

theorem hexVal_hexDigitChar {n : Nat} (h : n < 16) : hexVal (hexDigitChar n) = some n := by
  interval_cases n <;> rfl

theorem hexEncode_length (bs : List Nat) : (hexEncode bs).length = 2 * bs.length := by
  induction bs with
  | nil => rfl
  | cons b rest ih => simp [hexEncode, ih]; ring

theorem hexDecode_hexEncode {bs : List Nat} (h : ∀ b ∈ bs, b < 256) :
    hexDecode (hexEncode bs) = some bs := by
  induction bs with
  | nil => rfl
  | cons b rest ih =>
    have hb : b < 256 := h b (List.mem_cons_self b rest)
    have hrest := ih (fun x hx => h x (List.mem_cons_of_mem b hx))
    have hhi : b / 16 < 16 := by omega
    have hlo : b % 16 < 16 := Nat.mod_lt _ (by omega)
    simp only [hexEncode, hexDecode, hexVal_hexDigitChar hhi, hexVal_hexDigitChar hlo, hrest,
      Nat.div_add_mod]

/-- C4: For every digest (32 bytes), `split_digest` returns two hex halves of
equal length, and decoding the two returned hex strings after removing their
`0x` prefixes, concatenating the decoded bytes in order, and reversing the
big-endian transform reconstructs the original digest bytes exactly. -/
theorem split_digest_roundtrip (d : List Nat) (hlen : d.length = 32)
    (hb : ∀ b ∈ d, b < 256) :
    (split_digest d).1.length = (split_digest d).2.length ∧
    ∃ h0 h1 x y, drop0x (split_digest d).1 = some h0 ∧
      drop0x (split_digest d).2 = some h1 ∧
      hexDecode h0 = some x ∧ hexDecode h1 = some y ∧
      (x ++ y).reverse = d := by
  have hrev : d.reverse.length = 32 := by simp [hlen]
  have hmid : d.reverse.length / 2 = 16 := by omega
  have hmemT : ∀ b ∈ d.reverse.take 16, b < 256 := fun b hbm =>
    hb b (List.mem_reverse.mp (List.mem_of_mem_take hbm))
  have hmemD : ∀ b ∈ d.reverse.drop 16, b < 256 := fun b hbm =>
    hb b (List.mem_reverse.mp (List.mem_of_mem_drop hbm))
  have hT := hexDecode_hexEncode hmemT
  have hD := hexDecode_hexEncode hmemD
  have hlenT : (d.reverse.take 16).length = 16 := by simp [hrev]
  have hlenD : (d.reverse.drop 16).length = 16 := by simp [hrev]
  constructor
  · simp only [split_digest, hmid, List.length_cons, hexEncode_length, hlenT, hlenD]
  · refine ⟨_, _, _, _, ?_, ?_, hT, hD, ?_⟩
    · simp only [split_digest, hmid, drop0x]
    · simp only [split_digest, hmid, drop0x]
    · rw [List.take_append_drop, List.reverse_reverse]

/-- Witness for C4 (spec's end-to-end scenario): a digest of 32 zero bytes
splits into two hex halves that decode back to the original bytes. -/
theorem split_digest_roundtrip_witness :
    (List.replicate 32 0).length = 32 ∧
    ((split_digest (List.replicate 32 0)).1.length =
      (split_digest (List.replicate 32 0)).2.length ∧
    ∃ h0 h1 x y, drop0x (split_digest (List.replicate 32 0)).1 = some h0 ∧
      drop0x (split_digest (List.replicate 32 0)).2 = some h1 ∧
      hexDecode h0 = some x ∧ hexDecode h1 = some y ∧
      (x ++ y).reverse = List.replicate 32 0) :=
  ⟨by decide, split_digest_roundtrip (List.replicate 32 0) (by decide)
    (fun b hbm => by simp at hbm; omega)⟩

theorem decodeStrElems_map (l : List String) :
    decodeStrElems (l.map Json.str) = some l := by
  induction l with
  | nil => rfl
  | cons s rest ih => simp [decodeStrElems, decodeStr, ih]

theorem decodeStrListElems_map (l : List (List String)) :
    decodeStrListElems (l.map fun inner => Json.arr (inner.map Json.str)) = some l := by
  induction l with
  | nil => rfl
  | cons inner rest ih =>
    simp [decodeStrListElems, decodeStrList, decodeStrElems_map, ih]

theorem parseSnarkOutput_four (a c d : List String) (b : List (List String)) :
    parseSnarkOutput [Json.arr (a.map Json.str),
      Json.arr (b.map fun inner => Json.arr (inner.map Json.str)),
      Json.arr (c.map Json.str), Json.arr (d.map Json.str)] = some (a, b, c, d) := by
  simp [parseSnarkOutput, decodeRawProof, decodeStrList, decodeStrListList,
    decodeStrElems_map, decodeStrListElems_map]

/-- C2 (counterexample): an external prover output consisting of exactly
three well-formed groups — ordered hex strings, nested pairs of hex
strings, ordered hex strings — is rejected by the proof-decode parse, even
though every individual group deserializes to the described shape. -/
theorem parse_rejects_three_groups :
    parseSnarkOutput [Json.arr [Json.str "0x1a"],
      Json.arr [Json.arr [Json.str "0x1a", Json.str "0x2b"]],
      Json.arr [Json.str "0x3c"]] = none ∧
    decodeStrList (Json.arr [Json.str "0x1a"]) = some ["0x1a"] ∧
    decodeStrListList (Json.arr [Json.arr [Json.str "0x1a", Json.str "0x2b"]]) =
      some [["0x1a", "0x2b"]] ∧
    decodeStrList (Json.arr [Json.str "0x3c"]) = some ["0x3c"] :=
  ⟨rfl, rfl, rfl, rfl⟩

/-- C2 (amended): the proof-decode stage parses the external prover's
structured output — wrapped to form a valid structured document — as
exactly FOUR groups: group 1 an ordered sequence of strings, group 2 an
ordered sequence of groups of strings, groups 3 and 4 ordered sequences of
strings (the fourth group is never hex-decoded afterwards); an output
consisting of exactly those four groups is accepted. -/
theorem parseSnarkOutput_accepts_four_groups (a c d : List String)
    (b : List (List String)) :
    parseSnarkOutput [Json.arr (a.map Json.str),
      Json.arr (b.map fun inner => Json.arr (inner.map Json.str)),
      Json.arr (c.map Json.str), Json.arr (d.map Json.str)] = some (a, b, c, d) :=
  parseSnarkOutput_four a c d b

/-- C3 (counterexample): the token `zz00` in group 1 is not a hex token —
it has no `0x` prefix and is not hex-decodable as written — yet
generate_receipt does not fail: the first two characters are dropped,
`00` decodes, and a Receipt is produced, contradicting the claim that any
non-hex token in group 1 yields a Decode error naming group "a". -/
theorem generate_receipt_accepts_nonhex_a_token :
    drop0x "zz00".data = none ∧
    hexDecode "zz00".data = none ∧
    generate_receipt_post [] (List.replicate 32 0)
      [Json.arr [Json.str "zz00"], Json.arr [], Json.arr [], Json.arr []] =
      .ok { journal := [], sealM := { a := [[0]], b := [], c := [] },
            claimPostDigest := List.replicate 32 0 } :=
  ⟨rfl, rfl, rfl⟩

theorem decodeGroup_aborts (errMsg : String) (tokens : List (List Char))
    (hlen : ∀ t ∈ tokens, 2 ≤ t.length)
    (hbad : ∃ t ∈ tokens, hexDecode (t.drop 2) = none) :
    decodeGroup errMsg tokens = .aborted errMsg := by
  induction tokens with
  | nil => simp at hbad
  | cons x rest ih =>
    have hx : ¬ x.length < 2 := by
      have := hlen x (List.mem_cons_self x rest)
      omega
    rcases hbad with ⟨t, ht, htd⟩
    rcases List.mem_cons.mp ht with rfl | hmem
    · simp [decodeGroup, hx, htd]
    · cases hdx : hexDecode (x.drop 2) with
      | none => simp [decodeGroup, hx, hdx]
      | some bs =>
        have hrest := ih (fun u hu => hlen u (List.mem_cons_of_mem x hu)) ⟨t, hmem, htd⟩
        simp [decodeGroup, hx, hdx, hrest]

/-- C3 (amended): for every prover output of the accepted four-group shape
whose group-1 tokens all have length at least two, if some group-1 token's
suffix after its first two characters is not decodable hex, then
generate_receipt aborts with the Decode error naming group "a" and no
Receipt is produced.  (The length restriction is forced by the slice
panic of C10; the "suffix after the first two characters" restriction is
forced by the unconditional prefix strip of the counterexample.) -/
theorem generate_receipt_post_group_a_error (journal post : List Nat)
    (a c d : List String) (b : List (List String))
    (hlen : ∀ t ∈ a, 2 ≤ t.data.length)
    (hbad : ∃ t ∈ a, hexDecode (t.data.drop 2) = none) :
    generate_receipt_post journal post
      [Json.arr (a.map Json.str),
       Json.arr (b.map fun inner => Json.arr (inner.map Json.str)),
       Json.arr (c.map Json.str), Json.arr (d.map Json.str)] =
      .aborted decodeErrA := by
  have hparse := parseSnarkOutput_four a c d b
  have habort : decodeGroup decodeErrA (a.map String.data) = .aborted decodeErrA := by
    apply decodeGroup_aborts
    · intro t ht
      rcases List.mem_map.mp ht with ⟨s, hs, rfl⟩
      exact hlen s hs
    · rcases hbad with ⟨t, ht, htd⟩
      exact ⟨t.data, List.mem_map.mpr ⟨t, ht, rfl⟩, htd⟩
  simp [generate_receipt_post, hparse, decodeGroupsToSeal, habort]

/-- Witness for C3's amended theorem: group 1 = [`0xzz`] has a length-4
token whose suffix `zz` is not hex; the pipeline aborts naming group a. -/
theorem generate_receipt_post_group_a_error_witness :
    generate_receipt_post [] [] [Json.arr [Json.str "0xzz"], Json.arr [],
      Json.arr [], Json.arr []] = .aborted decodeErrA :=
  generate_receipt_post_group_a_error [] [] ["0xzz"] [] [] []
    (by intro t ht; simp at ht; subst ht; decide)
    ⟨"0xzz", by simp, by decide⟩

/-- C9: after the execute stage, the pipeline asserts that the session
resolves to exactly one Segment; for every execution producing a segment
count different from one it aborts at that point, whatever the rest of the
pipeline would do with a segment. -/
theorem execute_stage_asserts_one_segment {σ β : Type} (segments : List σ)
    (afterExecute : σ → RunResult β) (h : segments.length ≠ 1) :
    execute_stage segments afterExecute =
      .aborted "assertion failed: segments.len() == 1" := by
  unfold execute_stage
  rw [dif_neg h]

/-- Witness for C9: an empty segment list aborts the pipeline. -/
theorem execute_stage_asserts_one_segment_witness :
    execute_stage ([] : List Nat) (fun _ => RunResult.ok 0) =
      .aborted "assertion failed: segments.len() == 1" :=
  execute_stage_asserts_one_segment [] _ (by decide)

/-- C10: the proof-decode prefix strip removes the first two characters of
every token unconditionally, without checking that they are `0x`: a token
of length at least two whose first two characters are not `0x` has them
silently dropped before hex decoding, and a token shorter than two
characters makes the byte slice panic with a message that names no group. -/
theorem decodeGroup_strips_unconditionally (token : List Char) (errMsg : String) :
    (2 ≤ token.length → drop0x token = none →
      decodeGroup errMsg [token] =
        (match hexDecode (token.drop 2) with
         | none => RunResult.aborted errMsg
         | some bs => RunResult.ok [bs])) ∧
    (token.length < 2 → ∀ rest,
      decodeGroup errMsg (token :: rest) = .aborted sliceAbortMsg ∧
      sliceAbortMsg ≠ decodeErrA ∧ sliceAbortMsg ≠ decodeErrB ∧
      sliceAbortMsg ≠ decodeErrC) := by
  constructor
  · intro hlen _
    have hx : ¬ token.length < 2 := by omega
    cases hdx : hexDecode (token.drop 2) with
    | none => simp [decodeGroup, hx, hdx]
    | some bs => simp [decodeGroup, hx, hdx]
  · intro hshort rest
    refine ⟨by simp [decodeGroup, hshort], by decide, by decide, by decide⟩

/-- Witness for C10: `zz00` (no `0x` prefix) decodes to the byte `00`
silently; the one-character token `z` aborts with the slice message. -/
theorem decodeGroup_strips_unconditionally_witness :
    decodeGroup decodeErrA ["zz00".data] = .ok [[0]] ∧
    decodeGroup decodeErrA ["z".data] = .aborted sliceAbortMsg :=
  ⟨((decodeGroup_strips_unconditionally "zz00".data decodeErrA).1 (by decide)
      (by decide)).trans (by decide),
   (((decodeGroup_strips_unconditionally "z".data decodeErrA).2 (by decide) []).1)⟩

/-- C1 (code_bug evidence): the `POST_DIGEST` constant rendered by
bootstrap_test_receipt interpolates the already-formatted SEAL declaration
(the shadowing `format!` reuses `{seal}`), not the hex encoding of the
Claim's post-state digest; at seal bytes `[]` and a 32-zero-byte post
digest the emitted line embeds the SEAL declaration and differs from the
intended rendering. -/
theorem postDigestDecl_embeds_seal_decl :
    postDigestDecl [] = ("bytes32 public constant POST_DIGEST = " ++
      "bytes32(bytes public constant SEAL = hex\"\";);").data ∧
    postDigestDecl [] ≠ postDigestDeclSpec (List.replicate 32 0) :=
  ⟨rfl, by decide⟩

/-- C8: in the artifact fetch, if a file already exists at the cache output
path and its recomputed digest equals the expected digest, the operation
returns the cached file unchanged having performed no network access, no
local copy and no deletion; if the cached file's digest does not match,
the stale file is deleted before any fallback path (local copy or
download) is tried. -/
theorem download_zkr_cache_behaviour (outData : List Nat)
    (src net : Option (List Nat)) (shaHex : List Nat → String) :
    (shaHex outData = SHA256_HASH →
      download_zkr false (some outData) src net shaHex = ⟨some outData, [], true⟩) ∧
    (shaHex outData ≠ SHA256_HASH →
      (download_zkr false (some outData) src net shaHex).events =
        .deleteStale :: (downloadFallback src net shaHex).events) := by
  constructor
  · intro h
    simp [download_zkr, h]
  · intro h
    simp [download_zkr, h]

/-- Witness for C8: a matching cached file is returned untouched with no
events; a mismatching cached file is deleted first, with the fallback's
events after the deletion. -/
theorem download_zkr_cache_behaviour_witness :
    download_zkr false (some [1, 2]) none none (fun _ => SHA256_HASH) =
      ⟨some [1, 2], [], true⟩ ∧
    (download_zkr false (some [1, 2]) none none (fun _ => "")).events =
      .deleteStale :: (downloadFallback none none (fun _ => "")).events :=
  ⟨(download_zkr_cache_behaviour [1, 2] none none (fun _ => SHA256_HASH)).1 rfl,
   (download_zkr_cache_behaviour [1, 2] none none (fun _ => "")).2 (by decide)⟩

theorem dropLit_iff {l t r : List Char} : dropLit l t = some r ↔ t = l ++ r := by
  induction l generalizing t with
  | nil => simp [dropLit]
  | cons x ls ih =>
    cases t with
    | nil => simp [dropLit]
    | cons c ts =>
      by_cases hx : x = c
      · subst hx
        simp only [dropLit, if_pos rfl, List.cons_append, List.cons.injEq, true_and]
        exact ih
      · simp only [dropLit, if_neg hx, List.cons_append]
        constructor
        · intro h
          exact absurd h (by simp)
        · intro h
          injection h with h1 _
          exact absurd h1.symm hx

theorem spanApp (P : Char → Bool) (ws : List Char) (c : Char) (r : List Char)
    (hws : ∀ x ∈ ws, P x) (hc : P c = false) :
    (ws ++ c :: r).takeWhile P = ws ∧ (ws ++ c :: r).dropWhile P = c :: r := by
  induction ws with
  | nil => simp [List.takeWhile_cons, List.dropWhile_cons, hc]
  | cons w ws' ih =>
    have hw : P w := hws w (List.mem_cons_self w ws')
    have ih2 := ih (fun x hx => hws x (List.mem_cons_of_mem w hx))
    simp [List.takeWhile_cons, List.dropWhile_cons, hw, ih2.1, ih2.2]

theorem matchSolAt_digits {name t v : List Char} (h : matchSolAt name t = some v) :
    v ≠ [] ∧ ∀ c ∈ v, isDigitRe c := by
  unfold matchSolAt at h
  split at h
  · exact absurd h (by simp)
  split at h
  · exact absurd h (by simp)
  split at h
  · exact absurd h (by simp)
  split at h
  · split at h
    · exact absurd h (by simp)
    · next hne =>
      split at h
      · obtain rfl := Option.some.inj h
        simp only [List.isEmpty_iff] at hne
        exact ⟨hne, fun c hc => List.mem_takeWhile_imp hc⟩
      · exact absurd h (by simp)
  · exact absurd h (by simp)

theorem findSolCapture_digits {name t v : List Char}
    (h : findSolCapture name t = some v) : v ≠ [] ∧ ∀ c ∈ v, isDigitRe c := by
  induction t with
  | nil => exact absurd h (by simp [findSolCapture])
  | cons c rest ih =>
    unfold findSolCapture at h
    cases hm : matchSolAt name (c :: rest) with
    | some w =>
      rw [hm] at h
      obtain rfl := Option.some.inj h
      exact matchSolAt_digits hm
    | none =>
      rw [hm] at h
      exact ih h

theorem matchRustAt_some {name t ws ds r : List Char}
    (h : matchRustAt name t = some (ws, ds, r)) :
    t = declOf name ws ds ++ r ∧ (∀ c ∈ ws, isWsRe c) ∧ ds ≠ [] ∧
      ∀ c ∈ ds, isDigitRe c := by
  unfold matchRustAt at h
  split at h
  · exact absurd h (by simp)
  next r1 h1 =>
  split at h
  · next r2 h2 =>
    split at h
    · exact absurd h (by simp)
    · next hne =>
      split at h
      · next r3 h3 =>
        simp only [Option.some.injEq, Prod.mk.injEq] at h
        obtain ⟨hws, hds, hr⟩ := h
        have ht : t = rustLit name ++ r1 := dropLit_iff.mp h1
        have hr1 : r1 = ws ++ '"' :: r2 := by
          rw [← List.takeWhile_append_dropWhile isWsRe r1, hws, h2]
        have hr2 : r2 = ds ++ '"' :: ';' :: r := by
          rw [← List.takeWhile_append_dropWhile isDigitRe r2, hds, h3, hr]
        refine ⟨?_, ?_, ?_, ?_⟩
        · rw [ht, hr1, hr2]
          simp [declOf, List.append_assoc]
        · intro c hc
          rw [← hws] at hc
          exact List.mem_takeWhile_imp hc
        · rw [← hds]
          exact fun hemp => hne (by rw [hemp]; rfl)
        · intro c hc
          rw [← hds] at hc
          exact List.mem_takeWhile_imp hc
      · exact absurd h (by simp)
  · exact absurd h (by simp)

theorem matchRustAt_declOf {name ws ds r : List Char} (hws : ∀ c ∈ ws, isWsRe c)
    (hds : ds ≠ []) (hdd : ∀ c ∈ ds, isDigitRe c) :
    matchRustAt name (declOf name ws ds ++ r) = some (ws, ds, r) := by
  have hlit : dropLit (rustLit name) (declOf name ws ds ++ r) =
      some (ws ++ '"' :: (ds ++ '"' :: ';' :: r)) := by
    rw [dropLit_iff]
    simp [declOf, List.append_assoc]
  have hspan := spanApp isWsRe ws '"' (ds ++ '"' :: ';' :: r) hws (by decide)
  have hspan2 := spanApp isDigitRe ds '"' (';' :: r) hdd (by decide)
  have hde : (ds.isEmpty) = false := List.isEmpty_eq_false.mpr hds
  unfold matchRustAt
  rw [hlit]
  simp only [hspan.1, hspan.2, hspan2.1, hspan2.2, hde]
  simp

theorem findRustSplit_some {name t p ws ds r : List Char}
    (h : findRustSplit name t = some (p, ws, ds, r)) :
    t = p ++ declOf name ws ds ++ r ∧
      matchRustAt name (declOf name ws ds ++ r) = some (ws, ds, r) ∧
      ∀ q < p.length, matchRustAt name (p.drop q ++ declOf name ws ds ++ r) = none := by
  induction t generalizing p with
  | nil => exact absurd h (by simp [findRustSplit])
  | cons c rest ih =>
    unfold findRustSplit at h
    cases hm : matchRustAt name (c :: rest) with
    | some x =>
      obtain ⟨ws0, ds0, r0⟩ := x
      rw [hm] at h
      simp only [Option.some.injEq, Prod.mk.injEq] at h
      obtain ⟨hp, hws, hds, hr⟩ := h
      subst hp hws hds hr
      have hdec := matchRustAt_some hm
      refine ⟨by simpa using hdec.1, ?_, by simp⟩
      rw [← hdec.1]
      exact hm
    | none =>
      rw [hm] at h
      cases hf : findRustSplit name rest with
      | none => rw [hf] at h; exact absurd h (by simp)
      | some x =>
        obtain ⟨p', ws', ds', r'⟩ := x
        rw [hf] at h
        simp only [Option.some.injEq, Prod.mk.injEq] at h
        obtain ⟨hp, hws, hds, hr⟩ := h
        subst hws hds hr
        obtain ⟨ht, hm2, hnone⟩ := ih hf
        subst hp
        refine ⟨by simp [ht], hm2, ?_⟩
        intro q hq
        cases q with
        | zero =>
          simp only [List.drop_zero, List.cons_append]
          rw [ht] at hm
          exact hm
        | succ q' =>
          simp only [List.drop_succ_cons]
          exact hnone q' (by simpa using hq)

theorem findRustSplit_build {name p ws ds r rest0 : List Char}
    (hm : matchRustAt name rest0 = some (ws, ds, r))
    (hnone : ∀ q < p.length, matchRustAt name (p.drop q ++ rest0) = none) :
    findRustSplit name (p ++ rest0) = some (p, ws, ds, r) := by
  induction p with
  | nil =>
    cases hr0 : rest0 with
    | nil => rw [hr0] at hm; exact absurd hm (by simp [matchRustAt, rustLit, dropLit])
    | cons c cs =>
      rw [hr0] at hm
      simp only [List.nil_append, hr0]
      unfold findRustSplit
      rw [hm]
  | cons c p' ih =>
    have h0 := hnone 0 (by simp)
    simp only [List.drop_zero, List.cons_append] at h0
    have ih2 := ih (fun q hq => by
      have := hnone (q + 1) (by simpa using Nat.succ_lt_succ hq)
      simpa using this)
    show findRustSplit name (c :: (p' ++ rest0)) = _
    unfold findRustSplit
    rw [h0, ih2]

theorem rustLit_cons (name : List Char) :
    rustLit name = 'c' :: ("onst ".data ++ (name ++ ": &str =".data)) := by
  simp [rustLit]

theorem rustLit_getLast (name : List Char) : (rustLit name).getLast? = some '=' := by
  rw [rustLit, List.getLast?_append, List.getLast?_append]
  rfl

theorem rustLit_count (name : List Char) (hne : '=' ∉ name) :
    (rustLit name).count '=' = 1 := by
  rw [rustLit, List.count_append, List.count_append, List.count_eq_zero.mpr hne]
  rfl

theorem rustLit_split_eq {name a b : List Char} (hne : '=' ∉ name)
    (h : rustLit name = a ++ '=' :: b) : b = [] := by
  by_contra hb
  have hlast : (rustLit name).getLast? = some '=' := rustLit_getLast name
  rw [h, List.getLast?_append] at hlast
  have hbl : ('=' :: b).getLast? = b.getLast? := by
    cases b with
    | nil => exact absurd rfl hb
    | cons x xs => exact List.getLast?_cons_cons
  rw [hbl, List.getLast?_eq_getLast b hb] at hlast
  simp only [Option.or, Option.some.injEq] at hlast
  have hmem : '=' ∈ b := hlast ▸ List.getLast_mem hb
  have h1 : (rustLit name).count '=' = 1 := rustLit_count name hne
  rw [h, List.count_append] at h1
  have h2 : ('=' :: b).count '=' = b.count '=' + 1 := by
    rw [List.count_cons]
    simp
  have h3 : 1 ≤ b.count '=' := List.one_le_count_iff.mpr hmem
  omega

theorem declTail_char {ws ds r : List Char} {k : Nat} {c : Char}
    (hws : ∀ x ∈ ws, isWsRe x) (hds : ∀ x ∈ ds, isDigitRe x)
    (h : (ws ++ '"' :: (ds ++ '"' :: ';' :: r))[k]? = some c)
    (hk : k < ws.length + 1 + ds.length + 2) :
    isWsRe c ∨ c = '"' ∨ isDigitRe c ∨ c = ';' := by
  by_cases h1 : k < ws.length
  · rw [List.getElem?_append_left h1] at h
    exact Or.inl (hws c (List.getElem?_mem h))
  · push_neg at h1
    rw [List.getElem?_append_right h1] at h
    cases hk1e : k - ws.length with
    | zero =>
      rw [hk1e] at h
      simp only [List.getElem?_cons_zero, Option.some.injEq] at h
      exact Or.inr (Or.inl h.symm)
    | succ k2 =>
      rw [hk1e] at h
      simp only [List.getElem?_cons_succ] at h
      by_cases h2 : k2 < ds.length
      · rw [List.getElem?_append_left h2] at h
        exact Or.inr (Or.inr (Or.inl (hds c (List.getElem?_mem h))))
      · push_neg at h2
        rw [List.getElem?_append_right h2] at h
        have hbound : k2 - ds.length = 0 ∨ k2 - ds.length = 1 := by omega
        rcases hbound with h3 | h3 <;> rw [h3] at h
        · simp only [List.getElem?_cons_zero, Option.some.injEq] at h
          exact Or.inr (Or.inl h.symm)
        · simp only [List.getElem?_cons_succ, List.getElem?_cons_zero,
            Option.some.injEq] at h
          exact Or.inr (Or.inr (Or.inr h.symm))

theorem declOf_assoc (name ws ds r : List Char) :
    declOf name ws ds ++ r =
      rustLit name ++ (ws ++ '"' :: (ds ++ '"' :: ';' :: r)) := by
  simp [declOf, List.append_assoc]

theorem canonDecl_cons (name v : List Char) :
    canonDecl name v =
      'c' :: ("onst ".data ++ (name ++ ": &str =".data) ++
        (' ' :: '"' :: (v ++ '"' :: ';' :: []))) := by
  rw [canonDecl, declOf, rustLit_cons]
  simp [List.append_assoc]

/-- No match of the Rust declaration pattern can start strictly inside the
text that precedes the canonical replacement: if no match started there
before the splice (`sfx ++ u ++ s`), none starts there after it
(`sfx ++ canonDecl ++ s`).  The literal `const {NAME}: &str =` has no
self-overlap because `=` occurs in it only at the last position. -/
theorem matchRustAt_cross {rn v sfx u s : List Char} (hne : '=' ∉ rn)
    (hsfx : sfx ≠ [])
    (hnone : matchRustAt rn (sfx ++ (u ++ s)) = none) :
    matchRustAt rn (sfx ++ (canonDecl rn v ++ s)) = none := by
  cases hres : matchRustAt rn (sfx ++ (canonDecl rn v ++ s)) with
  | none => rfl
  | some x =>
    exfalso
    obtain ⟨ws', ds', r'⟩ := x
    obtain ⟨hE, hws', hds'ne, hds'd⟩ := matchRustAt_some hres
    rcases List.append_eq_append_iff.mp hE with ⟨a, hDa, hca⟩ | ⟨c', hsfx', hr'⟩
    · cases ha : a with
      | nil =>
        rw [ha, List.append_nil] at hDa
        rw [← hDa] at hnone
        have hm := @matchRustAt_declOf rn ws' ds' (u ++ s) hws' hds'ne hds'd
        rw [hm] at hnone
        exact absurd hnone (by simp)
      | cons a0 a'' =>
        subst ha
        have hhd : a0 = 'c' := by
          have h2 := hca
          rw [canonDecl_cons] at h2
          simp only [List.cons_append] at h2
          injection h2 with h h'
          exact h.symm
        subst hhd
        have hD : rustLit rn ++ (ws' ++ '"' :: (ds' ++ '"' :: ';' :: [])) =
            sfx ++ 'c' :: a'' := by
          have h3 := declOf_assoc rn ws' ds' []
          simp only [List.append_nil] at h3
          rw [← h3, hDa]
        rcases List.append_eq_append_iff.mp hD with ⟨x, hsfx2, hDt⟩ | ⟨y, hrl, ha2⟩
        · have hget : (ws' ++ '"' :: (ds' ++ '"' :: ';' :: ([] : List Char)))[x.length]? =
              some 'c' := by
            rw [hDt, List.getElem?_append_right (le_refl x.length)]
            simp
          have hlen : x.length < ws'.length + 1 + ds'.length + 2 := by
            have hlc := congrArg List.length hDt
            simp only [List.length_append, List.length_cons, List.length_nil] at hlc
            omega
          have hzone := declTail_char hws' hds'd hget hlen
          rcases hzone with h' | h' | h' | h' <;> revert h' <;> decide
        · cases hy : y with
          | nil =>
            rw [hy, List.append_nil] at hrl
            rw [hy, List.nil_append] at ha2
            have hget : (ws' ++ '"' :: (ds' ++ '"' :: ';' :: ([] : List Char)))[0]? =
                some 'c' := by
              rw [← ha2]
              simp
            have hlen : 0 < ws'.length + 1 + ds'.length + 2 := by omega
            have hzone := declTail_char hws' hds'd hget hlen
            rcases hzone with h' | h' | h' | h' <;> revert h' <;> decide
          | cons y0 y'' =>
            subst hy
            have hca2 : rustLit rn ++ ((' ' :: '"' :: (v ++ '"' :: ';' :: [])) ++ s) =
                (y0 :: y'') ++ ((ws' ++ '"' :: (ds' ++ '"' :: ';' :: [])) ++ r') :=
              calc rustLit rn ++ ((' ' :: '"' :: (v ++ '"' :: ';' :: [])) ++ s)
                  = canonDecl rn v ++ s := by
                    rw [canonDecl, declOf_assoc]
                    simp [List.append_assoc]
                _ = ('c' :: a'') ++ r' := hca
                _ = ((y0 :: y'') ++ (ws' ++ '"' :: (ds' ++ '"' :: ';' :: []))) ++ r' := by
                    rw [ha2]
                _ = (y0 :: y'') ++ ((ws' ++ '"' :: (ds' ++ '"' :: ';' :: [])) ++ r') := by
                    simp [List.append_assoc]
            rcases List.append_eq_append_iff.mp hca2 with ⟨z, hyz, _⟩ | ⟨w, hrw, _⟩
            · have hl1 := congrArg List.length hrl
              have hl2 := congrArg List.length hyz
              simp only [List.length_append, List.length_cons, List.length_nil] at hl1 hl2
              have hz : sfx.length = 0 := by omega
              exact hsfx (List.length_eq_zero.mp hz)
            · have hyne : (y0 :: y'') ≠ ([] : List Char) := by simp
              have hylast : (y0 :: y'').getLast hyne = '=' := by
                have hlast := rustLit_getLast rn
                rw [hrl, List.getLast?_append,
                  List.getLast?_eq_getLast _ hyne] at hlast
                simp only [Option.or, Option.some.injEq] at hlast
                exact hlast
              have hdecomp : (y0 :: y'').dropLast ++ ['='] = y0 :: y'' := by
                have h4 := List.dropLast_append_getLast hyne
                rw [hylast] at h4
                exact h4
              have hw : w = [] := by
                apply rustLit_split_eq hne (a := (y0 :: y'').dropLast)
                rw [hrw, ← hdecomp]
                simp [List.append_assoc]
              rw [hw, List.append_nil] at hrw
              have hl1 := congrArg List.length hrl
              rw [← hrw] at hl1
              simp only [List.length_append, List.length_cons, List.length_nil] at hl1
              have hz : sfx.length = 0 := by omega
              exact hsfx (List.length_eq_zero.mp hz)
    · rw [hsfx', List.append_assoc] at hnone
      have hm := @matchRustAt_declOf rn ws' ds' (c' ++ (u ++ s)) hws' hds'ne hds'd
      rw [hm] at hnone
      exact absurd hnone (by simp)

theorem rustReplace_idem {rn v t : List Char} (hne : '=' ∉ rn) (hv : v ≠ [])
    (hvd : ∀ c ∈ v, isDigitRe c) :
    rustReplace rn v (rustReplace rn v t) = rustReplace rn v t := by
  cases hf : findRustSplit rn t with
  | none => simp [rustReplace, hf]
  | some x =>
    obtain ⟨p, ws, ds, r⟩ := x
    obtain ⟨ht, hm, hnone⟩ := findRustSplit_some hf
    have hmC : matchRustAt rn (canonDecl rn v ++ r) = some ([' '], v, r) := by
      have hd := @matchRustAt_declOf rn [' '] v r (by decide) hv hvd
      rw [canonDecl]
      exact hd
    have hnone2 : ∀ q < p.length,
        matchRustAt rn (List.drop q p ++ (canonDecl rn v ++ r)) = none := by
      intro q hq
      have hd : List.drop q p ≠ [] := by
        intro hnil
        have := List.drop_eq_nil_iff.mp hnil
        omega
      have hn := hnone q hq
      rw [List.append_assoc] at hn
      exact matchRustAt_cross hne hd hn
    have hf2 := findRustSplit_build hmC hnone2
    have hrr : rustReplace rn v t = p ++ canonDecl rn v ++ r := by
      simp [rustReplace, hf]
    rw [hrr]
    have hf2' : findRustSplit rn (p ++ canonDecl rn v ++ r) = some (p, [' '], v, r) := by
      rw [List.append_assoc]
      exact hf2
    simp [rustReplace, hf2', hf2]

/-- C5: applying the constant synchronization with source text
`uint256 constant betax1 = 42;` and target text `const BETA_X1: &str = "0";`
under the mapping betax1 -> BETA_X1 produces the target text
`const BETA_X1: &str = "42";` (and reports nothing missing). -/
theorem sync_scenario_betax1 :
    syncConstants [("betax1".data, "BETA_X1".data)]
      "uint256 constant betax1 = 42;".data
      "const BETA_X1: &str = \"0\";".data =
      ("const BETA_X1: &str = \"42\";".data, []) := by
  decide

/-- C6 (counterexample): on a target declaration whose interior whitespace
is a newline, the synchronization rewrites the whole declaration into
single-space canonical form — the newline between `=` and the literal is
replaced too, so the result is NOT the target with only the literal value
changed. -/
theorem sync_normalizes_declaration_whitespace :
    (syncConstants [("betax1".data, "BETA_X1".data)]
        "uint256 constant betax1 = 42;".data
        "const BETA_X1: &str =\n\"0\";".data).1 =
      "const BETA_X1: &str = \"42\";".data ∧
    (syncConstants [("betax1".data, "BETA_X1".data)]
        "uint256 constant betax1 = 42;".data
        "const BETA_X1: &str =\n\"0\";".data).1 ≠
      "const BETA_X1: &str =\n\"42\";".data := by
  constructor
  · decide
  · decide

/-- C6 (amended): for every source text containing the mapped constant bound
to a decimal literal and every target text containing the corresponding
declaration, the synchronization rewrites the matched declaration to the
canonical single-space form carrying the source literal, leaving all target
text outside the matched declaration byte-identical; and applying the
synchronization a second time to its own output is a no-op (idempotence
holds for every target text, matched or not).  The target name must not
contain `=` (true of every name in the fixed mapping table). -/
theorem syncConstants_rewrite_idempotent (sn rn sol t : List Char)
    (hne : '=' ∉ rn) :
    (∀ v p ws ds r, findSolCapture sn sol = some v →
        findRustSplit rn t = some (p, ws, ds, r) →
        (syncConstants [(sn, rn)] sol t).1 = p ++ canonDecl rn v ++ r) ∧
    (syncConstants [(sn, rn)] sol ((syncConstants [(sn, rn)] sol t).1)).1 =
      (syncConstants [(sn, rn)] sol t).1 := by
  constructor
  · intro v p ws ds r hsol hsplit
    simp [syncConstants, hsol, rustReplace, hsplit]
  · cases hsol : findSolCapture sn sol with
    | none => simp [syncConstants, hsol]
    | some v =>
      obtain ⟨hv, hvd⟩ := findSolCapture_digits hsol
      simp only [syncConstants, hsol]
      exact rustReplace_idem hne hv hvd

/-- Witness for C6's amended theorem at the counterexample's own input:
the declaration with a newline is rewritten canonically with all text
outside the match untouched, and a second pass changes nothing. -/
theorem syncConstants_rewrite_idempotent_witness :
    (syncConstants [("betax1".data, "BETA_X1".data)]
        "uint256 constant betax1 = 42;".data
        "const BETA_X1: &str =\n\"0\";".data).1 =
      [] ++ canonDecl "BETA_X1".data "42".data ++ [] ∧
    (syncConstants [("betax1".data, "BETA_X1".data)]
        "uint256 constant betax1 = 42;".data
        ((syncConstants [("betax1".data, "BETA_X1".data)]
          "uint256 constant betax1 = 42;".data
          "const BETA_X1: &str =\n\"0\";".data).1)).1 =
      (syncConstants [("betax1".data, "BETA_X1".data)]
        "uint256 constant betax1 = 42;".data
        "const BETA_X1: &str =\n\"0\";".data).1 :=
  ⟨(syncConstants_rewrite_idempotent "betax1".data "BETA_X1".data
      "uint256 constant betax1 = 42;".data "const BETA_X1: &str =\n\"0\";".data
      (by decide)).1 "42".data [] ['\n'] ['0'] [] (by decide) (by decide),
   (syncConstants_rewrite_idempotent "betax1".data "BETA_X1".data
      "uint256 constant betax1 = 42;".data "const BETA_X1: &str =\n\"0\";".data
      (by decide)).2⟩

/-- C7: for every mapping entry whose source constant declaration is not
found in the source text, the synchronization reports that constant's name
and leaves the target text unmodified for that entry, continuing with the
remaining entries rather than aborting the whole rewrite: the final target
text equals the one produced with that entry removed from the mapping. -/
theorem syncConstants_missing_entry (l1 l2 : List (List Char × List Char))
    (sn rn sol rust : List Char) (h : findSolCapture sn sol = none) :
    (syncConstants (l1 ++ (sn, rn) :: l2) sol rust).1 =
      (syncConstants (l1 ++ l2) sol rust).1 ∧
    sn ∈ (syncConstants (l1 ++ (sn, rn) :: l2) sol rust).2 := by
  induction l1 generalizing rust with
  | nil =>
    refine ⟨?_, ?_⟩
    · simp [syncConstants, h]
    · simp [syncConstants, h]
  | cons e l1' ih =>
    obtain ⟨s0, r0⟩ := e
    cases h0 : findSolCapture s0 sol with
    | some v =>
      have := ih (rustReplace r0 v rust)
      refine ⟨?_, ?_⟩
      · simpa [syncConstants, h0] using this.1
      · simpa [syncConstants, h0] using this.2
    | none =>
      have := ih rust
      refine ⟨?_, ?_⟩
      · simpa [syncConstants, h0] using this.1
      · simp only [List.cons_append, syncConstants, h0]
        exact List.mem_cons_of_mem _ this.2

/-- Witness for C7: `alphax` is absent from the source, so its entry is
reported and skipped while the `betax1` entry still rewrites its target. -/
theorem syncConstants_missing_entry_witness :
    (syncConstants ([] ++ ("alphax".data, "ALPHA_X".data) ::
        [("betax1".data, "BETA_X1".data)])
      "uint256 constant betax1 = 42;".data
      "const ALPHA_X: &str = \"7\";\nconst BETA_X1: &str = \"0\";".data).1 =
      (syncConstants ([] ++ [("betax1".data, "BETA_X1".data)])
        "uint256 constant betax1 = 42;".data
        "const ALPHA_X: &str = \"7\";\nconst BETA_X1: &str = \"0\";".data).1 ∧
    "alphax".data ∈ (syncConstants ([] ++ ("alphax".data, "ALPHA_X".data) ::
        [("betax1".data, "BETA_X1".data)])
      "uint256 constant betax1 = 42;".data
      "const ALPHA_X: &str = \"7\";\nconst BETA_X1: &str = \"0\";".data).2 :=
  syncConstants_missing_entry [] [("betax1".data, "BETA_X1".data)]
    "alphax".data "ALPHA_X".data
    "uint256 constant betax1 = 42;".data
    "const ALPHA_X: &str = \"7\";\nconst BETA_X1: &str = \"0\";".data
    (by decide)

end Bootstrap
